import Mathlib

/-!
Shallow embedding of the transposition table of this repository
(src/tt.cpp): the entry codec (`TTEntry.save`), lookup
(`TranspositionTable.probe`), the parallel bulk `clear`, the `resize`
sizing and allocation-failure path, and the `hashfull` occupancy
estimator, together with theorems settling the specification's claims.

Machine integers are modelled as `Nat`/`Int` with explicit wrap-around
(`% 2^w`) wherever the C++ code performs a narrowing conversion.
Declarations that tt.cpp uses but that live in headers not present
under src/ (the entry field layout, `TTEntry::bound()`, the `entry(key)`
addressing, `ONE_PLY`, the bound-kind constants) are modelled from the
spec and carry a doc comment saying so.
-/

/-- Narrowing conversion to `uint16_t`: wrap modulo 2^16. -/
def wrap16u (n : Nat) : Nat := n % 65536

/-- Narrowing conversion to `uint8_t`: wrap modulo 2^8. -/
def wrap8u (n : Nat) : Nat := n % 256

/-- Narrowing conversion to `int16_t`: two's-complement wrap into [-32768, 32768). -/
def wrap16s (v : Int) : Int := (v + 32768) % 65536 - 32768

/-- Narrowing conversion to `int8_t`: two's-complement wrap into [-128, 128). -/
def wrap8s (v : Int) : Int := (v + 128) % 256 - 128

/-- The high 16 bits of a 64-bit fingerprint: `(uint16_t)(k >> 48)` under
`uint64_t` semantics. -/
def tagOf (k : Nat) : Nat := (k % 2 ^ 64) >>> 48

/-- Modelled from the spec: `ONE_PLY`, the ply unit of the `Depth` type, is
declared in a header missing from src/; the spec measures stored depth in
whole-ply units, so the unit is 1. -/
def ONE_PLY : Int := 1

/-- Modelled from the spec: the bound-kind constants occupy the low 2 bits
of the genBound byte; EXACT is the kind that is both a lower and an upper
bound. -/
def BOUND_NONE : Nat := 0

def BOUND_UPPER : Nat := 1

def BOUND_LOWER : Nat := 2

def BOUND_EXACT : Nat := 3

/-- Modelled from the spec: the packed entry record of §3 — 16-bit tag,
16-bit move, 16-bit signed value, 8-bit generation/bound byte, 8-bit
signed depth (8 bytes in total). The struct declaration lives in a header
missing from src/. -/
structure TTEntry where
  key16 : Nat
  move16 : Nat
  value16 : Int
  genBound8 : Nat
  depth8 : Int
deriving DecidableEq, Repr

/-- The all-zero entry produced by `memset(..., 0, ...)` in `clear()`. -/
def TTEntry.zero : TTEntry := ⟨0, 0, 0, 0, 0⟩

/-- Modelled from the spec: `TTEntry::bound()` extracts the bound kind from
the low 2 bits of the genBound byte. -/
def TTEntry.bound (e : TTEntry) : Nat := e.genBound8 &&& 3

/-- `TTEntry::save` from src/tt.cpp: refresh the move when the candidate is
non-null or the tag differs; overwrite the record when the tag differs, the
new depth beats the stored depth minus 4, or the new bound is EXACT. -/
def TTEntry.save (e : TTEntry) (gen : Nat) (k : Nat) (v : Int) (b : Nat)
    (d : Int) (m : Nat) : TTEntry :=
  let m16 := if m ≠ 0 ∨ tagOf k ≠ e.key16 then wrap16u m else e.move16
  if tagOf k ≠ e.key16 ∨ Int.tdiv d ONE_PLY > e.depth8 - 4 ∨ b = BOUND_EXACT then
    { key16 := tagOf k, move16 := m16, value16 := wrap16s v,
      genBound8 := wrap8u (gen ||| b), depth8 := wrap8s (Int.tdiv d ONE_PLY) }
  else
    { e with move16 := m16 }

/-- The table state: the entry array (as a total map from indices), the
entry count, and the current generation byte. -/
structure TranspositionTable where
  table : Nat → TTEntry
  entryCount : Nat
  generation8 : Nat

/-- Pointwise update of the entry array at one index. -/
def updTable (t : Nat → TTEntry) (i : Nat) (e : TTEntry) : Nat → TTEntry :=
  fun j => if j = i then e else t j

/-- Modelled from the spec: the `entry(key)` addressing of §4.2 — a
multiply-high mapping of the low 32 bits of the key across `entryCount`
entries, under `uint64_t` arithmetic. Declared in a header missing from
src/. -/
def ttIndex (entryCount : Nat) (key : Nat) : Nat :=
  (((key % 2 ^ 32) * entryCount) % 2 ^ 64) >>> 32

/-- What `TranspositionTable::probe` returns and leaves behind: the found
flag, the index of the returned entry, and the table contents after the
call. -/
structure ProbeResult where
  found : Bool
  idx : Nat
  table : Nat → TTEntry

/-- `TranspositionTable::probe` from src/tt.cpp: if the addressed entry is
empty or its tag matches, refresh its genBound byte to the current
generation OR-ed with its bound bits and report found iff the tag is
nonzero; otherwise report a miss and touch nothing. -/
def TranspositionTable.probe (tt : TranspositionTable) (key : Nat) : ProbeResult :=
  let i := ttIndex tt.entryCount key
  let e := tt.table i
  if e.key16 = 0 ∨ e.key16 = tagOf key then
    { found := e.key16 != 0, idx := i,
      table := updTable tt.table i
        { e with genBound8 := wrap8u (tt.generation8 ||| e.bound) } }
  else
    { found := false, idx := i, table := tt.table }

/-- Modelled from the spec: `sizeof(TTEntry)` — the packed layout of §3
totals 8 bytes. -/
def sizeofTTEntry : Nat := 8

/-- Outcome of `TranspositionTable::resize`: either a successful
reallocation with the new entry count, or the fatal path that reports the
requested megabyte size and terminates the process. -/
inductive ResizeOutcome where
  | ok (entryCount : Nat)
  | fatalExit (reportedMB : Nat) (exitCode : Nat)
deriving DecidableEq, Repr

/-- The C standard failure status passed to `exit` on allocation failure. -/
def EXIT_FAILURE : Nat := 1

/-- The entry count computed by `resize`: `mbSize * 1024 * 1024 /
sizeof(TTEntry)` in `size_t` arithmetic — the product wraps modulo 2^64
before the truncating division. -/
def resizeEntryCount (mbSize : Nat) : Nat :=
  mbSize * 1024 * 1024 % 2 ^ 64 / sizeofTTEntry

/-- `TranspositionTable::resize` from src/tt.cpp, with the success of the
allocation as an explicit parameter: on success the table has the computed
entry count; on failure the routine prints the requested size and calls
`exit(EXIT_FAILURE)` without retrying or returning. -/
def resizeModel (mbSize : Nat) (allocOk : Bool) : ResizeOutcome :=
  if allocOk then .ok (resizeEntryCount mbSize) else .fatalExit mbSize EXIT_FAILURE

/-- Start of the slice zeroed by worker `idx` in `clear()`:
`stride * idx` with `stride = entryCount / T`. -/
def sliceStart (ec T idx : Nat) : Nat := ec / T * idx

/-- Length of the slice zeroed by worker `idx` in `clear()`: the stride for
all but the last worker, the remainder of the range for the last one. -/
def sliceLen (ec T idx : Nat) : Nat :=
  if idx ≠ T - 1 then ec / T else ec - sliceStart ec T idx

/-- Membership of index `j` in worker `idx`'s slice. -/
def inSlice (ec T idx j : Nat) : Prop :=
  sliceStart ec T idx ≤ j ∧ j < sliceStart ec T idx + sliceLen ec T idx

instance (ec T idx j : Nat) : Decidable (inSlice ec T idx j) := by
  unfold inSlice; infer_instance

/-- `std::memset(&table[s], 0, l * sizeof(TTEntry))` on the entry array. -/
def memsetZero (t : Nat → TTEntry) (s l : Nat) : Nat → TTEntry :=
  fun i => if s ≤ i ∧ i < s + l then TTEntry.zero else t i

/-- `TranspositionTable::clear` from src/tt.cpp: every worker zeroes its
slice; the slices are disjoint, so the join order is irrelevant and the
workers are folded sequentially. -/
def clearTable (ec T : Nat) (t : Nat → TTEntry) : Nat → TTEntry :=
  (List.range T).foldl
    (fun acc idx => memsetZero acc (sliceStart ec T idx) (sliceLen ec T idx)) t

/-- `TranspositionTable::hashfull` from src/tt.cpp: count, among the first
1000 entries, those whose genBound byte with the bound bits masked off
equals the current generation. -/
def hashfullModel (t : Nat → TTEntry) (gen : Nat) : Nat :=
  (List.range 1000).countP fun i => ((t i).genBound8 &&& 252) == gen

/-- The scenario of claim C1: probe the fingerprint, save through the
returned entry, probe the same fingerprint again. -/
def saveThenProbe (tt : TranspositionTable) (k : Nat) (v : Int) (b : Nat)
    (d : Int) (m : Nat) : ProbeResult :=
  let r1 := tt.probe k
  let e1 := TTEntry.save (r1.table r1.idx) tt.generation8 k v b d m
  TranspositionTable.probe ⟨updTable r1.table r1.idx e1, tt.entryCount, tt.generation8⟩ k

/-- C7 counterexample: at `m = 2^44` the `size_t` product `m * 2^20`
wraps to 0, so a successful `resize` yields entry count 0, not
`m * 2^20 / sizeof(Entry)`. -/
theorem resize_entryCount_formula_cx :
    resizeModel (2 ^ 44) true = ResizeOutcome.ok 0 ∧
    (0 : Nat) ≠ 2 ^ 44 * 2 ^ 20 / sizeofTTEntry := by
  decide

/-- C7 amended: for every megabyte size `m` small enough that the byte
count `m * 2^20` fits in `size_t` (`m < 2^44`), a successful `resize(m)`
yields entry count `m * 2^20 / sizeof(Entry)`; in particular `resize(1)`
with the 8-byte entry yields 131072 entries. -/
theorem resize_entryCount_formula (m : Nat) (hm : m < 2 ^ 44) :
    resizeModel m true = ResizeOutcome.ok (m * 2 ^ 20 / sizeofTTEntry) ∧
    resizeModel 1 true = ResizeOutcome.ok 131072 := by
  constructor
  · unfold resizeModel resizeEntryCount
    simp only [if_pos, ResizeOutcome.ok.injEq]
    have h2 : m * 1024 * 1024 < 2 ^ 64 := by omega
    rw [Nat.mod_eq_of_lt h2]
    have h1 : m * 1024 * 1024 = m * 2 ^ 20 := by ring
    rw [h1]
  · rfl

/-- C7 witness: the amended sizing formula applied at `m = 1`. -/
theorem resize_entryCount_formula_w :
    (1 < 2 ^ 44) ∧
    (resizeModel 1 true = ResizeOutcome.ok (1 * 2 ^ 20 / sizeofTTEntry) ∧
      resizeModel 1 true = ResizeOutcome.ok 131072) :=
  ⟨by decide, resize_entryCount_formula 1 (by decide)⟩

/-- C10: when the allocation inside `resize(m)` fails, the routine reports
the requested size `m` and terminates the process with the failure status,
without returning a table to the caller. -/
theorem resize_alloc_failure (m : Nat) :
    resizeModel m false = ResizeOutcome.fatalExit m EXIT_FAILURE ∧ EXIT_FAILURE ≠ 0 := by
  exact ⟨rfl, by decide⟩

/-- A concrete entry holding an EXACT record at depth 10 for the
fingerprint `2^48` (tag 1), used by the C2 and C5 theorems. -/
def eC2 : TTEntry := ⟨1, 0, 100, 3, 10⟩

/-- C2 counterexample: a non-exact save for the same fingerprint whose
depth (8) does not exceed the stored depth (10) by more than 4 plies
nevertheless overwrites the stored value, because the code accepts any
depth above the stored depth minus 4. -/
theorem exact_preserved_cx :
    eC2.key16 = tagOf (2 ^ 48) ∧ TTEntry.bound eC2 = BOUND_EXACT ∧
    BOUND_LOWER ≠ BOUND_EXACT ∧ ¬((8 : Int) > eC2.depth8 + 4) ∧
    (TTEntry.save eC2 0 (2 ^ 48) 50 BOUND_LOWER 8 0).value16 ≠ eC2.value16 := by
  decide

/-- C2 amended: an entry storing the tag of fingerprint `k` with bound
EXACT keeps its value, depth, and genBound byte under a non-exact save for
the same fingerprint unless the new depth exceeds the stored depth minus
the 4-ply admission margin. -/
theorem exact_overwrite_margin (e : TTEntry) (gen k : Nat) (v : Int) (b : Nat)
    (d : Int) (m : Nat)
    (htag : e.key16 = tagOf k) (hex : TTEntry.bound e = BOUND_EXACT)
    (hb : b ≠ BOUND_EXACT) (hd : ¬Int.tdiv d ONE_PLY > e.depth8 - 4) :
    (TTEntry.save e gen k v b d m).value16 = e.value16 ∧
    (TTEntry.save e gen k v b d m).depth8 = e.depth8 ∧
    (TTEntry.save e gen k v b d m).genBound8 = e.genBound8 := by
  unfold TTEntry.save
  split_ifs with h1 h2 h3
  · rcases h2 with h | h | h
    · exact absurd htag.symm h
    · exact absurd h hd
    · exact absurd h hb
  · exact ⟨rfl, rfl, rfl⟩
  · rcases h3 with h | h | h
    · exact absurd htag.symm h
    · exact absurd h hd
    · exact absurd h hb
  · exact ⟨rfl, rfl, rfl⟩

/-- C2 witness: the amended theorem applied at a depth-5 non-exact save
against the concrete depth-10 EXACT entry `eC2`. -/
theorem exact_overwrite_margin_w :
    (eC2.key16 = tagOf (2 ^ 48) ∧ TTEntry.bound eC2 = BOUND_EXACT ∧
      BOUND_LOWER ≠ BOUND_EXACT ∧ ¬Int.tdiv 5 ONE_PLY > eC2.depth8 - 4) ∧
    (TTEntry.save eC2 0 (2 ^ 48) 50 BOUND_LOWER 5 0).value16 = eC2.value16 ∧
    (TTEntry.save eC2 0 (2 ^ 48) 50 BOUND_LOWER 5 0).depth8 = eC2.depth8 ∧
    (TTEntry.save eC2 0 (2 ^ 48) 50 BOUND_LOWER 5 0).genBound8 = eC2.genBound8 :=
  ⟨⟨by decide, by decide, by decide, by decide⟩,
    exact_overwrite_margin eC2 0 (2 ^ 48) 50 BOUND_LOWER 5 0
      (by decide) (by decide) (by decide) (by decide)⟩

/-- C5: a save whose admission test rejects the overwrite (same stored
tag, depth not above the stored depth minus 4, non-EXACT bound) but whose
move is non-null updates the stored move and leaves value, depth, and
genBound untouched. -/
theorem rejected_save_updates_move (e : TTEntry) (gen k : Nat) (v : Int) (b : Nat)
    (d : Int) (m : Nat)
    (htag : e.key16 = tagOf k) (hd : ¬Int.tdiv d ONE_PLY > e.depth8 - 4)
    (hb : b ≠ BOUND_EXACT) (hm : m ≠ 0) (hm2 : m < 65536) :
    (TTEntry.save e gen k v b d m).move16 = m ∧
    (TTEntry.save e gen k v b d m).value16 = e.value16 ∧
    (TTEntry.save e gen k v b d m).depth8 = e.depth8 ∧
    (TTEntry.save e gen k v b d m).genBound8 = e.genBound8 := by
  unfold TTEntry.save
  split_ifs with h1 h2 h3
  · rcases h2 with h | h | h
    · exact absurd htag.symm h
    · exact absurd h hd
    · exact absurd h hb
  · exact ⟨Nat.mod_eq_of_lt hm2, rfl, rfl, rfl⟩
  · exact absurd (Or.inl hm) h1
  · exact absurd (Or.inl hm) h1

/-- C5 witness: the theorem applied to the concrete EXACT entry `eC2` and
a rejected shallow save carrying move 7. -/
theorem rejected_save_updates_move_w :
    (eC2.key16 = tagOf (2 ^ 48) ∧ ¬Int.tdiv 5 ONE_PLY > eC2.depth8 - 4 ∧
      BOUND_LOWER ≠ BOUND_EXACT ∧ (7 : Nat) ≠ 0 ∧ (7 : Nat) < 65536) ∧
    (TTEntry.save eC2 0 (2 ^ 48) 50 BOUND_LOWER 5 7).move16 = 7 ∧
    (TTEntry.save eC2 0 (2 ^ 48) 50 BOUND_LOWER 5 7).value16 = eC2.value16 ∧
    (TTEntry.save eC2 0 (2 ^ 48) 50 BOUND_LOWER 5 7).depth8 = eC2.depth8 ∧
    (TTEntry.save eC2 0 (2 ^ 48) 50 BOUND_LOWER 5 7).genBound8 = eC2.genBound8 :=
  ⟨⟨by decide, by decide, by decide, by decide, by decide⟩,
    rejected_save_updates_move eC2 0 (2 ^ 48) 50 BOUND_LOWER 5 7
      (by decide) (by decide) (by decide) (by decide) (by decide)⟩

/-- `probe` always returns the index computed by the addressing function. -/
theorem probe_idx (tt : TranspositionTable) (k : Nat) :
    (tt.probe k).idx = ttIndex tt.entryCount k := by
  unfold TranspositionTable.probe
  dsimp only
  split_ifs <;> rfl

/-- On a miss against an occupied slot, `probe` leaves the table untouched. -/
theorem probe_table_of_mismatch (tt : TranspositionTable) (k : Nat)
    (h0 : (tt.table (ttIndex tt.entryCount k)).key16 ≠ 0)
    (h1 : (tt.table (ttIndex tt.entryCount k)).key16 ≠ tagOf k) :
    (tt.probe k).table = tt.table := by
  unfold TranspositionTable.probe
  dsimp only
  rw [if_neg]
  rintro (h | h)
  · exact h0 h
  · exact h1 h

/-- On the hit-or-empty branch, `probe` rewrites only the genBound byte of
the addressed entry. -/
theorem probe_table_of_match (tt : TranspositionTable) (k : Nat)
    (h : (tt.table (ttIndex tt.entryCount k)).key16 = 0 ∨
      (tt.table (ttIndex tt.entryCount k)).key16 = tagOf k) :
    (tt.probe k).table = updTable tt.table (ttIndex tt.entryCount k)
      { tt.table (ttIndex tt.entryCount k) with
        genBound8 := wrap8u (tt.generation8 |||
          TTEntry.bound (tt.table (ttIndex tt.entryCount k))) } := by
  unfold TranspositionTable.probe
  dsimp only
  rw [if_pos h]

/-- `probe` reports a hit exactly when the addressed entry's tag is nonzero
and equals the fingerprint's tag. -/
theorem probe_found_iff (tt : TranspositionTable) (k : Nat) :
    (tt.probe k).found = true ↔
      ((tt.table (ttIndex tt.entryCount k)).key16 ≠ 0 ∧
        (tt.table (ttIndex tt.entryCount k)).key16 = tagOf k) := by
  unfold TranspositionTable.probe
  dsimp only
  split_ifs with h
  · simp only [bne_iff_ne]
    rcases h with h | h
    · simp [h]
    · simp [h]
  · simp only [Bool.false_eq_true, false_iff]
    rintro ⟨h0, h1⟩
    exact h (Or.inr h1)

/-- Modelled from the spec: the relative age of an entry generation with
respect to the current generation, modulo 256. -/
def relativeAge (gen entryGen : Nat) : Int := ((gen : Int) - (entryGen : Int)) % 256

/-- Modelled from the spec: the replacement "worth" of an entry — its
stored depth minus 8 times its relative age; the entry generation is the
genBound byte with the bound bits masked off. -/
def worthScore (gen : Nat) (e : TTEntry) : Int :=
  e.depth8 - 8 * relativeAge gen (e.genBound8 &&& 252)

/-- The bucket ("cluster") addressed by a fingerprint: this implementation
uses single-entry buckets, so the bucket is the one addressed index. -/
def bucketOf (tt : TranspositionTable) (key : Nat) : List Nat :=
  [ttIndex tt.entryCount key]

/-- C3: when no entry of the addressed bucket stores the fingerprint's
tag, `probe` reports a miss and returns the bucket entry of minimal worth,
ties resolved toward the first entry in scan order (degenerate here: the
bucket holds a single entry). -/
theorem probe_miss_replacement (tt : TranspositionTable) (k : Nat)
    (h : ∀ j ∈ bucketOf tt k, (tt.table j).key16 ≠ tagOf k) :
    (tt.probe k).found = false ∧
    (tt.probe k).idx ∈ bucketOf tt k ∧
    (∀ j ∈ bucketOf tt k,
      worthScore tt.generation8 (tt.table (tt.probe k).idx) ≤
        worthScore tt.generation8 (tt.table j)) ∧
    (∀ j ∈ bucketOf tt k,
      worthScore tt.generation8 (tt.table j) ≤
        worthScore tt.generation8 (tt.table (tt.probe k).idx) →
      (tt.probe k).idx ≤ j) := by
  have hi : (tt.table (ttIndex tt.entryCount k)).key16 ≠ tagOf k :=
    h (ttIndex tt.entryCount k) (by simp [bucketOf])
  have hfound : (tt.probe k).found = false := by
    rcases Bool.eq_false_or_eq_true (tt.probe k).found with hf | hf
    · rcases (probe_found_iff tt k).mp hf with ⟨_, h1⟩
      exact absurd h1 hi
    · exact hf
  refine ⟨hfound, ?_, ?_, ?_⟩
  · rw [probe_idx]
    simp [bucketOf]
  · intro j hj
    rw [probe_idx]
    have : j = ttIndex tt.entryCount k := by simpa [bucketOf] using hj
    rw [this]
  · intro j hj _
    rw [probe_idx]
    have : j = ttIndex tt.entryCount k := by simpa [bucketOf] using hj
    omega

/-- A concrete one-entry table whose slot holds tag 5, used as C3's
witness input. -/
def tt3w : TranspositionTable := ⟨fun _ => ⟨5, 0, 0, 0, 0⟩, 1, 4⟩

/-- C3 witness: the theorem applied to a fingerprint with tag 1 probing a
bucket holding tag 5. -/
theorem probe_miss_replacement_w :
    (∀ j ∈ bucketOf tt3w (2 ^ 48), (tt3w.table j).key16 ≠ tagOf (2 ^ 48)) ∧
    (tt3w.probe (2 ^ 48)).found = false ∧
    (tt3w.probe (2 ^ 48)).idx ∈ bucketOf tt3w (2 ^ 48) ∧
    (∀ j ∈ bucketOf tt3w (2 ^ 48),
      worthScore tt3w.generation8 (tt3w.table (tt3w.probe (2 ^ 48)).idx) ≤
        worthScore tt3w.generation8 (tt3w.table j)) ∧
    (∀ j ∈ bucketOf tt3w (2 ^ 48),
      worthScore tt3w.generation8 (tt3w.table j) ≤
        worthScore tt3w.generation8 (tt3w.table (tt3w.probe (2 ^ 48)).idx) →
      (tt3w.probe (2 ^ 48)).idx ≤ j) :=
  ⟨by decide, probe_miss_replacement tt3w (2 ^ 48) (by decide)⟩

/-- A concrete one-entry table with an all-zero (empty) slot and a nonzero
current generation, used by the C4 theorems. -/
def tt4w : TranspositionTable := ⟨fun _ => TTEntry.zero, 1, 4⟩

/-- C4 counterexample: probing an empty slot returns found = false yet
mutates the table — the slot's genBound byte is rewritten with the current
generation. -/
theorem probe_frame_cx :
    (tt4w.probe 0).found = false ∧
    ((tt4w.probe 0).table 0).genBound8 ≠ (tt4w.table 0).genBound8 := by
  decide

/-- C4 amended: `probe` only ever touches the addressed entry; a hit, or a
miss against an empty slot, rewrites exactly that entry's genBound byte
with the current generation OR-ed with its bound bits; a miss against an
occupied slot mutates nothing. -/
theorem probe_mutation_frame (tt : TranspositionTable) (k : Nat) :
    (∀ j, j ≠ ttIndex tt.entryCount k → (tt.probe k).table j = tt.table j) ∧
    ((tt.probe k).found = false → (tt.table (ttIndex tt.entryCount k)).key16 ≠ 0 →
      (tt.probe k).table = tt.table) ∧
    ((tt.probe k).found = true ∨ (tt.table (ttIndex tt.entryCount k)).key16 = 0 →
      (tt.probe k).table (ttIndex tt.entryCount k) =
        { tt.table (ttIndex tt.entryCount k) with
          genBound8 := wrap8u (tt.generation8 |||
            TTEntry.bound (tt.table (ttIndex tt.entryCount k))) }) := by
  refine ⟨?_, ?_, ?_⟩
  · intro j hj
    by_cases hc : (tt.table (ttIndex tt.entryCount k)).key16 = 0 ∨
        (tt.table (ttIndex tt.entryCount k)).key16 = tagOf k
    · rw [probe_table_of_match tt k hc]
      unfold updTable
      rw [if_neg hj]
    · push_neg at hc
      rw [probe_table_of_mismatch tt k hc.1 hc.2]
  · intro hf h0
    have h1 : (tt.table (ttIndex tt.entryCount k)).key16 ≠ tagOf k := by
      intro heq
      have := (probe_found_iff tt k).mpr ⟨h0, heq⟩
      rw [hf] at this
      exact Bool.false_ne_true this
    exact probe_table_of_mismatch tt k h0 h1
  · intro hcase
    have hc : (tt.table (ttIndex tt.entryCount k)).key16 = 0 ∨
        (tt.table (ttIndex tt.entryCount k)).key16 = tagOf k := by
      rcases hcase with hf | h0
      · exact Or.inr ((probe_found_iff tt k).mp hf).2
      · exact Or.inl h0
    rw [probe_table_of_match tt k hc]
    unfold updTable
    rw [if_pos rfl]

/-- C4 witness: the amended theorem applied to the empty-slot table
`tt4w`, where the refresh branch fires with found = false. -/
theorem probe_mutation_frame_w :
    (tt4w.probe 0).table (ttIndex tt4w.entryCount 0) =
      { tt4w.table (ttIndex tt4w.entryCount 0) with
        genBound8 := wrap8u (tt4w.generation8 |||
          TTEntry.bound (tt4w.table (ttIndex tt4w.entryCount 0))) } :=
  (probe_mutation_frame tt4w 0).2.2 (Or.inr rfl)

set_option maxRecDepth 4096 in
/-- Bitmask arithmetic for the generation byte: masking off the bound bits
of a byte that is a multiple of 4 leaves it unchanged. -/
theorem land252_of_aligned : ∀ g, g < 256 → g % 4 = 0 → g &&& 252 = g := by
  decide

/-- C9: probing a fingerprint whose addressed slot is empty (tag 0, bound
bits clear) reports found = false yet rewrites that slot's genBound byte to
the current generation, so if the slot is among the 1000 sampled entries
the subsequent `hashfull` counts it as occupied. -/
theorem probe_empty_slot_refresh (tt : TranspositionTable) (k : Nat)
    (h0 : (tt.table (ttIndex tt.entryCount k)).key16 = 0)
    (hb0 : TTEntry.bound (tt.table (ttIndex tt.entryCount k)) = 0)
    (hg1 : tt.generation8 < 256) (hg2 : tt.generation8 % 4 = 0)
    (hs : ttIndex tt.entryCount k < 1000) :
    (tt.probe k).found = false ∧
    ((tt.probe k).table (ttIndex tt.entryCount k)).genBound8 = tt.generation8 ∧
    1 ≤ hashfullModel (tt.probe k).table tt.generation8 := by
  have htab := probe_table_of_match tt k (Or.inl h0)
  have hgb : ((tt.probe k).table (ttIndex tt.entryCount k)).genBound8 =
      tt.generation8 := by
    rw [htab]
    unfold updTable
    rw [if_pos rfl]
    show wrap8u (tt.generation8 ||| TTEntry.bound (tt.table (ttIndex tt.entryCount k))) =
      tt.generation8
    rw [hb0]
    show (tt.generation8 ||| 0) % 256 = tt.generation8
    simp [Nat.mod_eq_of_lt hg1]
  refine ⟨?_, hgb, ?_⟩
  · rcases Bool.eq_false_or_eq_true (tt.probe k).found with hf | hf
    · rcases (probe_found_iff tt k).mp hf with ⟨hne, _⟩
      exact absurd h0 hne
    · exact hf
  · unfold hashfullModel
    have : 0 < (List.range 1000).countP
        fun i => (((tt.probe k).table i).genBound8 &&& 252) == tt.generation8 := by
      rw [List.countP_pos_iff]
      refine ⟨ttIndex tt.entryCount k, List.mem_range.mpr hs, ?_⟩
      rw [hgb]
      rw [land252_of_aligned tt.generation8 hg1 hg2]
      exact beq_self_eq_true tt.generation8
    omega

/-- A concrete 1000-entry empty table at generation 4, used as C9's
witness input. -/
def tt9w : TranspositionTable := ⟨fun _ => TTEntry.zero, 1000, 4⟩

/-- C9 witness: the theorem applied to a probe of fingerprint 0 against
the empty 1000-entry table `tt9w`. -/
theorem probe_empty_slot_refresh_w :
    ((tt9w.table (ttIndex tt9w.entryCount 0)).key16 = 0 ∧
      TTEntry.bound (tt9w.table (ttIndex tt9w.entryCount 0)) = 0 ∧
      tt9w.generation8 < 256 ∧ tt9w.generation8 % 4 = 0 ∧
      ttIndex tt9w.entryCount 0 < 1000) ∧
    (tt9w.probe 0).found = false ∧
    ((tt9w.probe 0).table (ttIndex tt9w.entryCount 0)).genBound8 = tt9w.generation8 ∧
    1 ≤ hashfullModel (tt9w.probe 0).table tt9w.generation8 :=
  ⟨⟨by decide, by decide, by decide, by decide, by decide⟩,
    probe_empty_slot_refresh tt9w 0 (by decide) (by decide) (by decide)
      (by decide) (by decide)⟩

/-- An EXACT save writes the fingerprint's tag and, for in-range inputs,
the exact value, depth, and move into the entry. -/
theorem save_exact_fields (e : TTEntry) (gen k : Nat) (v : Int) (d : Int) (m : Nat)
    (hv1 : -32768 ≤ v) (hv2 : v < 32768)
    (hd1 : -128 ≤ d) (hd2 : d < 128)
    (hm1 : m ≠ 0) (hm2 : m < 65536) :
    (TTEntry.save e gen k v BOUND_EXACT d m).key16 = tagOf k ∧
    (TTEntry.save e gen k v BOUND_EXACT d m).value16 = v ∧
    (TTEntry.save e gen k v BOUND_EXACT d m).depth8 = d ∧
    (TTEntry.save e gen k v BOUND_EXACT d m).move16 = m := by
  unfold TTEntry.save
  rw [if_pos (Or.inl hm1), if_pos (Or.inr (Or.inr rfl))]
  refine ⟨rfl, ?_, ?_, ?_⟩
  · show wrap16s v = v
    unfold wrap16s
    omega
  · show wrap8s (Int.tdiv d ONE_PLY) = d
    unfold wrap8s ONE_PLY
    rw [Int.tdiv_one]
    omega
  · exact Nat.mod_eq_of_lt hm2

/-- When the addressed entry stores the (nonzero) tag of the fingerprint,
`probe` reports a hit and returns that entry with its value, depth, and
move intact. -/
theorem probe_hit_entry (tt : TranspositionTable) (k : Nat)
    (h : (tt.table (ttIndex tt.entryCount k)).key16 = tagOf k)
    (h0 : tagOf k ≠ 0) :
    (tt.probe k).found = true ∧
    ((tt.probe k).table ((tt.probe k).idx)).value16 =
      (tt.table (ttIndex tt.entryCount k)).value16 ∧
    ((tt.probe k).table ((tt.probe k).idx)).depth8 =
      (tt.table (ttIndex tt.entryCount k)).depth8 ∧
    ((tt.probe k).table ((tt.probe k).idx)).move16 =
      (tt.table (ttIndex tt.entryCount k)).move16 := by
  have hfound : (tt.probe k).found = true :=
    (probe_found_iff tt k).mpr ⟨by rw [h]; exact h0, h⟩
  have htab := probe_table_of_match tt k (Or.inr h)
  have hidx := probe_idx tt k
  refine ⟨hfound, ?_, ?_, ?_⟩ <;>
    · rw [hidx, htab]
      unfold updTable
      rw [if_pos rfl]

/-- C1 counterexample: for the fingerprint 0 (whose high 16 bits are 0),
an EXACT save through the probed entry followed by a second probe of the
same fingerprint does not report found = true — the stored tag 0 reads as
an empty slot. -/
def tt1z : TranspositionTable := ⟨fun _ => TTEntry.zero, 1, 4⟩

/-- C1 counterexample theorem: the round-trip claim fails at fingerprint
0, value 100, depth 4, move 7 on the fresh table `tt1z`: the second probe
reports found = false. -/
theorem save_probe_roundtrip_cx :
    ¬((saveThenProbe tt1z 0 100 BOUND_EXACT 4 7).found = true ∧
      ((saveThenProbe tt1z 0 100 BOUND_EXACT 4 7).table
        (saveThenProbe tt1z 0 100 BOUND_EXACT 4 7).idx).value16 = 100 ∧
      ((saveThenProbe tt1z 0 100 BOUND_EXACT 4 7).table
        (saveThenProbe tt1z 0 100 BOUND_EXACT 4 7).idx).depth8 = 4 ∧
      ((saveThenProbe tt1z 0 100 BOUND_EXACT 4 7).table
        (saveThenProbe tt1z 0 100 BOUND_EXACT 4 7).idx).move16 = 7) := by
  decide

/-- C1 amended: for every fingerprint whose high 16 bits are nonzero,
every value in int16 range, every depth that is a whole number of plies in
int8 range, and every non-null 16-bit move, an EXACT save through the
entry returned by `probe` followed by a second probe of the same
fingerprint reports found = true with exactly the saved value, depth, and
move. -/
theorem save_probe_roundtrip (tt : TranspositionTable) (k : Nat) (v : Int)
    (d : Int) (m : Nat)
    (hk : tagOf k ≠ 0) (hv1 : -32768 ≤ v) (hv2 : v < 32768)
    (hply : d % ONE_PLY = 0) (hd1 : -128 ≤ d) (hd2 : d < 128)
    (hm1 : m ≠ 0) (hm2 : m < 65536) :
    (saveThenProbe tt k v BOUND_EXACT d m).found = true ∧
    ((saveThenProbe tt k v BOUND_EXACT d m).table
      (saveThenProbe tt k v BOUND_EXACT d m).idx).value16 = v ∧
    ((saveThenProbe tt k v BOUND_EXACT d m).table
      (saveThenProbe tt k v BOUND_EXACT d m).idx).depth8 = d ∧
    ((saveThenProbe tt k v BOUND_EXACT d m).table
      (saveThenProbe tt k v BOUND_EXACT d m).idx).move16 = m := by
  have hE := save_exact_fields ((tt.probe k).table (tt.probe k).idx)
    tt.generation8 k v d m hv1 hv2 hd1 hd2 hm1 hm2
  have hst : saveThenProbe tt k v BOUND_EXACT d m =
      TranspositionTable.probe
        ⟨updTable (tt.probe k).table (tt.probe k).idx
          (TTEntry.save ((tt.probe k).table (tt.probe k).idx)
            tt.generation8 k v BOUND_EXACT d m),
          tt.entryCount, tt.generation8⟩ k := rfl
  set e1 := TTEntry.save ((tt.probe k).table (tt.probe k).idx)
    tt.generation8 k v BOUND_EXACT d m with he1
  set tt2 : TranspositionTable :=
    ⟨updTable (tt.probe k).table (tt.probe k).idx e1,
      tt.entryCount, tt.generation8⟩ with htt2
  have htt2i : tt2.table (ttIndex tt2.entryCount k) = e1 := by
    show updTable (tt.probe k).table (tt.probe k).idx e1
      (ttIndex tt.entryCount k) = e1
    unfold updTable
    rw [probe_idx tt k, if_pos rfl]
  have hkey : (tt2.table (ttIndex tt2.entryCount k)).key16 = tagOf k := by
    rw [htt2i]; exact hE.1
  have H := probe_hit_entry tt2 k hkey hk
  rw [hst]
  refine ⟨H.1, ?_, ?_, ?_⟩
  · rw [H.2.1, htt2i]; exact hE.2.1
  · rw [H.2.2.1, htt2i]; exact hE.2.2.1
  · rw [H.2.2.2, htt2i]; exact hE.2.2.2

/-- C1 witness: the amended round-trip applied to fingerprint `2^48`
(tag 1), value 100, depth 4, move 7 on the fresh table `tt1z`. -/
theorem save_probe_roundtrip_w :
    (tagOf (2 ^ 48) ≠ 0 ∧ -32768 ≤ (100 : Int) ∧ (100 : Int) < 32768 ∧
      (4 : Int) % ONE_PLY = 0 ∧ -128 ≤ (4 : Int) ∧ (4 : Int) < 128 ∧
      (7 : Nat) ≠ 0 ∧ (7 : Nat) < 65536) ∧
    (saveThenProbe tt1z (2 ^ 48) 100 BOUND_EXACT 4 7).found = true ∧
    ((saveThenProbe tt1z (2 ^ 48) 100 BOUND_EXACT 4 7).table
      (saveThenProbe tt1z (2 ^ 48) 100 BOUND_EXACT 4 7).idx).value16 = 100 ∧
    ((saveThenProbe tt1z (2 ^ 48) 100 BOUND_EXACT 4 7).table
      (saveThenProbe tt1z (2 ^ 48) 100 BOUND_EXACT 4 7).idx).depth8 = 4 ∧
    ((saveThenProbe tt1z (2 ^ 48) 100 BOUND_EXACT 4 7).table
      (saveThenProbe tt1z (2 ^ 48) 100 BOUND_EXACT 4 7).idx).move16 = 7 :=
  ⟨⟨by decide, by decide, by decide, by decide, by decide, by decide,
      by decide, by decide⟩,
    save_probe_roundtrip tt1z (2 ^ 48) 100 4 7 (by decide) (by decide)
      (by decide) (by decide) (by decide) (by decide) (by decide) (by decide)⟩

/-- Every index below `entryCount` falls in some worker's slice. -/
theorem slice_cover (ec T j : Nat) (hT : 1 ≤ T) (hj : j < ec) :
    ∃ idx, idx < T ∧ inSlice ec T idx j := by
  by_cases hcase : j < ec / T * (T - 1)
  · have hs : 0 < ec / T := by
      rcases Nat.eq_zero_or_pos (ec / T) with h0 | h0
      · rw [h0] at hcase; omega
      · exact h0
    have hidx : j / (ec / T) < T - 1 := by
      apply (Nat.div_lt_iff_lt_mul hs).mpr
      calc j < ec / T * (T - 1) := hcase
        _ = (T - 1) * (ec / T) := Nat.mul_comm _ _
    refine ⟨j / (ec / T), by omega, ?_, ?_⟩
    · unfold sliceStart
      have := Nat.div_mul_le_self j (ec / T)
      calc ec / T * (j / (ec / T)) = j / (ec / T) * (ec / T) := Nat.mul_comm _ _
        _ ≤ j := Nat.div_mul_le_self j (ec / T)
    · have hmod := Nat.div_add_mod j (ec / T)
      have hlt := Nat.mod_lt j hs
      unfold inSlice sliceStart sliceLen at *
      rw [if_pos (by omega : j / (ec / T) ≠ T - 1)]
      omega
  · have hle : ec / T * (T - 1) ≤ ec := by
      have h1 : ec / T * (T - 1) ≤ ec / T * T :=
        Nat.mul_le_mul_left (ec / T) (by omega)
      have h2 : ec / T * T ≤ ec := Nat.div_mul_le_self ec T
      omega
    refine ⟨T - 1, by omega, ?_, ?_⟩
    · show sliceStart ec T (T - 1) ≤ j
      unfold sliceStart
      omega
    · show j < sliceStart ec T (T - 1) + sliceLen ec T (T - 1)
      unfold sliceLen
      rw [if_neg (by omega : ¬(T - 1 ≠ T - 1))]
      unfold sliceStart
      omega

/-- Every index in some worker's slice is below `entryCount`. -/
theorem slice_inside (ec T idx j : Nat) (hidx : idx < T)
    (h : inSlice ec T idx j) : j < ec := by
  rcases h with ⟨h1, h2⟩
  by_cases hlast : idx = T - 1
  · have hle : ec / T * (T - 1) ≤ ec := by
      have ha : ec / T * (T - 1) ≤ ec / T * T :=
        Nat.mul_le_mul_left (ec / T) (by omega)
      have hb : ec / T * T ≤ ec := Nat.div_mul_le_self ec T
      omega
    unfold sliceLen sliceStart at *
    rw [if_neg (by omega : ¬(idx ≠ T - 1))] at h2
    subst hlast
    omega
  · have ha : ec / T * (idx + 1) ≤ ec / T * T :=
      Nat.mul_le_mul_left (ec / T) (by omega)
    have hb : ec / T * T ≤ ec := Nat.div_mul_le_self ec T
    have hc : ec / T * (idx + 1) = ec / T * idx + ec / T := Nat.mul_succ _ _
    unfold sliceLen sliceStart at *
    rw [if_pos hlast] at h2
    omega

/-- Slices of two distinct workers never contain the same index (ordered
version). -/
theorem slice_disjoint_lt (ec T i1 i2 j : Nat) (h2T : i2 < T) (hlt : i1 < i2)
    (h1 : inSlice ec T i1 j) (h2 : inSlice ec T i2 j) : False := by
  rcases h1 with ⟨_, h1b⟩
  rcases h2 with ⟨h2a, _⟩
  have hi1 : i1 ≠ T - 1 := by omega
  have ha : ec / T * (i1 + 1) ≤ ec / T * i2 :=
    Nat.mul_le_mul_left (ec / T) (by omega)
  have hc : ec / T * (i1 + 1) = ec / T * i1 + ec / T := Nat.mul_succ _ _
  unfold sliceLen sliceStart at *
  rw [if_pos hi1] at h1b
  omega

/-- C6: for every entry count and worker count T ≥ 1, the `clear()` worker
slices are pairwise disjoint and their union is exactly `[0, entryCount)`. -/
theorem clear_slices_partition (ec T : Nat) (hT : 1 ≤ T) :
    (∀ j, j < ec ↔ ∃ idx, idx < T ∧ inSlice ec T idx j) ∧
    (∀ i1 i2 j, i1 < T → i2 < T → i1 ≠ i2 →
      ¬(inSlice ec T i1 j ∧ inSlice ec T i2 j)) := by
  constructor
  · intro j
    constructor
    · exact slice_cover ec T j hT
    · rintro ⟨idx, hidx, h⟩
      exact slice_inside ec T idx j hidx h
  · rintro i1 i2 j h1T h2T hne ⟨ha, hb⟩
    rcases Nat.lt_or_ge i1 i2 with hlt | hge
    · exact slice_disjoint_lt ec T i1 i2 j h2T hlt ha hb
    · have hlt : i2 < i1 := by omega
      exact slice_disjoint_lt ec T i2 i1 j h1T hlt hb ha

/-- C6 witness: the partition property instantiated at 10 entries and 3
workers. -/
theorem clear_slices_partition_w :
    (1 ≤ 3) ∧
    ((∀ j, j < 10 ↔ ∃ idx, idx < 3 ∧ inSlice 10 3 idx j) ∧
      (∀ i1 i2 j, i1 < 3 → i2 < 3 → i1 ≠ i2 →
        ¬(inSlice 10 3 i1 j ∧ inSlice 10 3 i2 j))) :=
  ⟨by decide, clear_slices_partition 10 3 (by decide)⟩

/-- After the first `n` workers have run, any index covered by one of
their slices holds the all-zero entry. -/
theorem clear_fold_zero (ec T : Nat) (t : Nat → TTEntry) (n i : Nat)
    (h : ∃ idx, idx < n ∧ inSlice ec T idx i) :
    (List.range n).foldl
      (fun acc idx => memsetZero acc (sliceStart ec T idx) (sliceLen ec T idx)) t i
    = TTEntry.zero := by
  induction n with
  | zero =>
    rcases h with ⟨idx, hidx, _⟩
    omega
  | succ n ih =>
    rw [List.range_succ, List.foldl_append]
    show memsetZero ((List.range n).foldl _ t) (sliceStart ec T n) (sliceLen ec T n) i
      = TTEntry.zero
    unfold memsetZero
    by_cases hin : sliceStart ec T n ≤ i ∧ i < sliceStart ec T n + sliceLen ec T n
    · rw [if_pos hin]
    · rw [if_neg hin]
      rcases h with ⟨idx, hidx, hsl⟩
      have hidxn : idx ≠ n := by
        intro heq
        exact hin (heq ▸ hsl)
      exact ih ⟨idx, by omega, hsl⟩

/-- `clear()` zeroes every entry of the table range. -/
theorem clearTable_zero (ec T : Nat) (t : Nat → TTEntry) (i : Nat)
    (hT : 1 ≤ T) (hi : i < ec) : clearTable ec T t i = TTEntry.zero :=
  clear_fold_zero ec T t T i (slice_cover ec T i hT hi)

/-- C8: on a table of at least 1000 entries whose current generation has a
nonzero value in its high 6 bits, `clear()` followed by `hashfull()` with
no intervening save or probe returns 0. -/
theorem clear_then_hashfull (tt : TranspositionTable) (T : Nat) (hT : 1 ≤ T)
    (hec : 1000 ≤ tt.entryCount) (hg : tt.generation8 &&& 252 ≠ 0) :
    hashfullModel (clearTable tt.entryCount T tt.table) tt.generation8 = 0 := by
  unfold hashfullModel
  rw [List.countP_eq_zero]
  intro a ha
  have ha1000 : a < 1000 := List.mem_range.mp ha
  rw [clearTable_zero tt.entryCount T tt.table a hT (by omega)]
  show ¬((TTEntry.zero.genBound8 &&& 252) == tt.generation8) = true
  intro hbeq
  have h0 : (0 : Nat) = tt.generation8 := beq_iff_eq.mp hbeq
  apply hg
  rw [← h0]
  decide

/-- A concrete 1000-entry table with stale contents at generation 8, used
as C8's witness input. -/
def tt8w : TranspositionTable := ⟨fun _ => ⟨1, 2, 3, 4, 5⟩, 1000, 8⟩

/-- C8 witness: clearing `tt8w` with one worker thread and then sampling
`hashfull` yields 0. -/
theorem clear_then_hashfull_w :
    (1 ≤ 1 ∧ 1000 ≤ tt8w.entryCount ∧ tt8w.generation8 &&& 252 ≠ 0) ∧
    hashfullModel (clearTable tt8w.entryCount 1 tt8w.table) tt8w.generation8 = 0 :=
  ⟨⟨by decide, by decide, by decide⟩,
    clear_then_hashfull tt8w 1 (by decide) (by decide) (by decide)⟩
